import Mathlib

/-!
Verification development for the signal-processing core of
`ricker_widget.py`: the Ricker-wavelet synthesizer `createRicker` and the
power-spectrum analyzer `computePowerSpectrum`.

Modelling conventions.  Time-grid arithmetic (the time vector, the index
limit, the frequency bins) is exact in the source for the inputs of
interest, so it is embedded over the rationals; amplitudes, the discrete
Fourier transform and the decibel normalization are embedded over the
reals.  Python exceptions are modelled by an `Except` result: the two
explicit ValueError checks, the out-of-bounds access `timeVector[1]` on a
length-one vector, and the failing integer conversion `int(...)` when the
derived sample interval is zero (division by zero yields inf or nan, whose
conversion to int raises).  A decibel entry is `Option ℝ`: `none` when the
floating-point computation of `10*log10(power/max(power))` does not produce
a finite real number (nan or -inf), `some x` when it produces the real x.
-/

/-- Truncation toward zero on a rational number: the behavior of the Python
int() conversion applied to a finite float. -/
def truncToZero (q : ℚ) : ℤ :=
  if 0 ≤ q then ⌊q⌋ else ⌈q⌉

/-- Embedding of numpy.arange over the rationals: the values
start, start + step, ... with ⌈(stop - start) / step⌉ elements. -/
def arangeQ (first stop step : ℚ) : List ℚ :=
  (List.range (⌈(stop - first) / step⌉.toNat)).map fun i : ℕ => first + (i : ℚ) * step

/-- Embedding of createRicker (lines 43-66 of ricker_widget.py): builds the
odd-length zero-centered time vector by arange and maps the Ricker formula
over it.  Times are in milliseconds; the formula converts to seconds. -/
noncomputable def createRicker (fpeak scalar : ℝ) (signalLength sampleRate : ℚ) :
    List ℝ × List ℚ :=
  let indexLimit : ℤ := truncToZero (signalLength / 2 / sampleRate)
  let t : List ℚ :=
    arangeQ (-(indexLimit : ℚ) * sampleRate) (((indexLimit : ℚ) + 1) * sampleRate) sampleRate
  let omega : ℝ := 2 * Real.pi * fpeak
  let ricker : List ℝ := t.map fun ti : ℚ =>
    scalar * (1 - 0.5 * omega ^ 2 * ((ti : ℝ) / 1000) ^ 2) *
      Real.exp (-0.25 * omega ^ 2 * ((ti : ℝ) / 1000) ^ 2)
  (ricker, t)

/-- Orthonormally scaled discrete Fourier transform coefficient k of a real
sequence, as computed by np.fft.fft(wavelet, norm=ortho): the plain DFT sum
divided by the square root of the length. -/
noncomputable def dftOrtho (wavelet : List ℝ) (k : ℕ) : ℂ :=
  ((1 / Real.sqrt wavelet.length : ℝ) : ℂ) *
    ∑ j ∈ Finset.range wavelet.length,
      ((wavelet.getD j 0 : ℝ) : ℂ) *
        Complex.exp (-(2 * (Real.pi : ℂ) * Complex.I) * j * k / wavelet.length)

/-- Two-sided power spectrum (line 107): squared magnitude of every
orthonormal DFT coefficient. -/
noncomputable def powerTwoSided (wavelet : List ℝ) : List ℝ :=
  (List.range wavelet.length).map fun k => Complex.abs (dftOrtho wavelet k) ^ 2

/-- Maximum of a list as np.max computes it: fold of max over the elements
(0 for the empty list, which np.max rejects; never reached here). -/
def npMax : List ℝ → ℝ
  | [] => 0
  | a :: rest => rest.foldl max a

/-- Decibel entry 10*log10(p/m) of line 114, as an optional real: `some`
exactly when the quotient is positive, so that the logarithm is a finite
real; `none` models the nan (m = 0) and -inf (p = 0 < m) float outcomes. -/
noncomputable def dbEntry (p m : ℝ) : Option ℝ :=
  if 0 < p / m then some (10 * Real.logb 10 (p / m)) else none

/-- Python slice l[1:stop] with an integer stop: a negative stop counts from
the end, and the bounds are clamped to the list length. -/
def pySlice1 {α : Type} (l : List α) (stop : ℤ) : List α :=
  let s : ℕ := if stop < 0 then (stop + l.length).toNat else min stop.toNat l.length
  (l.take s).drop 1

/-- Quantity signalLength of line 100: last time minus first time. -/
def derivedSignalLength (timeVector : List ℚ) : ℚ :=
  timeVector.getLastD 0 - timeVector.headD 0

/-- Quantity sampleRate of line 101: second time minus first time. -/
def derivedSampleRate (timeVector : List ℚ) : ℚ :=
  timeVector.getD 1 0 - timeVector.headD 0

/-- Spectral index limit of line 110: int(signalLength / 2 / sampleRate) on
the quantities derived from the time vector. -/
def derivedIndexLimit (timeVector : List ℚ) : ℤ :=
  truncToZero (derivedSignalLength timeVector / 2 / derivedSampleRate timeVector)

/-- Result record of computePowerSpectrum: one-sided power, normalized
decibel power, frequency bins. -/
structure SpectrumResult where
  power : List ℝ
  powerNormdB : List (Option ℝ)
  freq : List ℚ

/-- Error outcomes of computePowerSpectrum: the two explicit ValueError
raises of lines 92-96, the IndexError from timeVector[1] on a length-one
vector (line 101), and the int() conversion failure on line 110 when the
derived sample interval is zero (the division produces nan or inf). -/
inductive SpectrumError where
  | evenLength : SpectrumError
  | lengthMismatch : SpectrumError
  | indexError : SpectrumError
  | nanError : SpectrumError
deriving DecidableEq

/-- Success path of computePowerSpectrum (lines 99-120): derive signal
length and sample interval from the time vector, square the orthonormal DFT,
fold to one side by the slice power[1:indexLimit+1] doubled with the DC bin
prepended undoubled, normalize to decibels by the maximum, and build the
frequency bins with the two-sided bin-width formula. -/
noncomputable def spectrumOf (wavelet : List ℝ) (timeVector : List ℚ) : SpectrumResult :=
  let power2 := powerTwoSided wavelet
  let indexLimit := derivedIndexLimit timeVector
  let power := power2.headD 0 :: (pySlice1 power2 (indexLimit + 1)).map fun p => 2 * p
  let powerNormdB := power.map fun p => dbEntry p (npMax power)
  let scaleFactor : ℚ := 1 / ((derivedSampleRate timeVector / 1000) * ((2 * indexLimit + 1 : ℤ) : ℚ))
  let freq := (arangeQ 0 ((indexLimit : ℚ) + 1) 1).map fun i => scaleFactor * i
  ⟨power, powerNormdB, freq⟩

/-- Embedding of computePowerSpectrum (lines 70-120): the validation checks
of lines 92-96 in order, then the two implicit failure modes, then the
success result. -/
noncomputable def computePowerSpectrum (wavelet : List ℝ) (timeVector : List ℚ) :
    Except SpectrumError SpectrumResult :=
  if wavelet.length % 2 = 0 then .error .evenLength
  else if wavelet.length ≠ timeVector.length then .error .lengthMismatch
  else if timeVector.length < 2 then .error .indexError
  else if derivedSampleRate timeVector = 0 then .error .nanError
  else .ok (spectrumOf wavelet timeVector)

/-- Module-level default wavelet of lines 125-131: fpeak 20 Hz, scalar 1,
length 256 ms, sample interval 4 ms. -/
noncomputable def defaultRicker : List ℝ × List ℚ := createRicker 20 1 256 4

/-! Helper lemmas on the embedded operations. -/

lemma truncToZero_of_nonneg {q : ℚ} (h : 0 ≤ q) : truncToZero q = ⌊q⌋ := if_pos h

lemma arangeQ_length (a b s : ℚ) : (arangeQ a b s).length = (⌈(b - a) / s⌉).toNat := by
  simp [arangeQ]

lemma arangeQ_getElem? (a b s : ℚ) (i : ℕ) (h : i < (⌈(b - a) / s⌉).toNat) :
    (arangeQ a b s)[i]? = some (a + i * s) := by
  simp only [arangeQ, List.getElem?_map, List.getElem?_range h]
  rfl

lemma createRicker_snd (fpeak scalar : ℝ) (sl sr : ℚ) :
    (createRicker fpeak scalar sl sr).2 =
      arangeQ (-(truncToZero (sl / 2 / sr) : ℚ) * sr)
        (((truncToZero (sl / 2 / sr) : ℚ) + 1) * sr) sr := by
  simp [createRicker]

lemma createRicker_fst (fpeak scalar : ℝ) (sl sr : ℚ) :
    (createRicker fpeak scalar sl sr).1 =
      (createRicker fpeak scalar sl sr).2.map (fun ti : ℚ =>
        scalar * (1 - 0.5 * (2 * Real.pi * fpeak) ^ 2 * ((ti : ℝ) / 1000) ^ 2) *
          Real.exp (-0.25 * (2 * Real.pi * fpeak) ^ 2 * ((ti : ℝ) / 1000) ^ 2)) := by
  simp [createRicker]

/-- Under positive inputs the synthesized time vector is the arithmetic grid
with 2 * indexLimit + 1 points, indexLimit being the floor of
signalLength / 2 / sampleRate. -/
lemma createRicker_time_grid (fpeak scalar : ℝ) (sl sr : ℚ) (hsl : 0 < sl) (hsr : 0 < sr) :
    (createRicker fpeak scalar sl sr).2.length = 2 * (⌊sl / 2 / sr⌋).toNat + 1 ∧
    (∀ i : ℕ, i < 2 * (⌊sl / 2 / sr⌋).toNat + 1 →
      (createRicker fpeak scalar sl sr).2[i]? =
        some ((-((⌊sl / 2 / sr⌋).toNat : ℚ) + i) * sr)) := by
  have hq : 0 ≤ sl / 2 / sr := by positivity
  have htr : truncToZero (sl / 2 / sr) = ⌊sl / 2 / sr⌋ := truncToZero_of_nonneg hq
  have hfl : 0 ≤ ⌊sl / 2 / sr⌋ := Int.floor_nonneg.mpr hq
  set z : ℤ := ⌊sl / 2 / sr⌋ with hz
  have hcast : ((z.toNat : ℚ)) = (z : ℚ) := by
    exact_mod_cast congrArg (fun n : ℤ => (n : ℚ)) (Int.toNat_of_nonneg hfl)
  have hcount : ⌈((((z : ℚ)) + 1) * sr - -(z : ℚ) * sr) / sr⌉ = 2 * z + 1 := by
    have hsr0 : sr ≠ 0 := ne_of_gt hsr
    have harg : ((((z : ℚ)) + 1) * sr - -(z : ℚ) * sr) / sr = ((2 * z + 1 : ℤ) : ℚ) := by
      field_simp
      ring
    rw [harg, Int.ceil_intCast]
  have hcount' : (⌈((((z : ℚ)) + 1) * sr - -(z : ℚ) * sr) / sr⌉).toNat = 2 * z.toNat + 1 := by
    rw [hcount]
    omega
  constructor
  · rw [createRicker_snd, htr, arangeQ_length, hcount']
  · intro i hi
    rw [createRicker_snd, htr, arangeQ_getElem? _ _ _ i (by rw [hcount']; exact hi)]
    refine congrArg some ?_
    rw [hcast]
    ring

/-- C2: for every positive signal length and positive sample interval, the
synthesized time vector has length exactly 2 * indexLimit + 1 (hence odd)
with indexLimit = floor(signalLength / 2 / sampleInterval), runs from
-indexLimit * sampleInterval to +indexLimit * sampleInterval in uniform
steps of sampleInterval, is symmetric about its middle, and its
median-index element is exactly 0. -/
theorem C2_time_vector_invariants (fpeak scalar : ℝ) (sl sr : ℚ)
    (hsl : 0 < sl) (hsr : 0 < sr) :
    (createRicker fpeak scalar sl sr).2.length = 2 * (⌊sl / 2 / sr⌋).toNat + 1 ∧
    Odd (createRicker fpeak scalar sl sr).2.length ∧
    (∀ i : ℕ, i < (createRicker fpeak scalar sl sr).2.length →
      (createRicker fpeak scalar sl sr).2[i]? =
        some ((-(((⌊sl / 2 / sr⌋).toNat : ℕ) : ℚ) + i) * sr)) ∧
    (createRicker fpeak scalar sl sr).2.getD 0 0 =
      -(((⌊sl / 2 / sr⌋).toNat : ℕ) : ℚ) * sr ∧
    (createRicker fpeak scalar sl sr).2.getD
      ((createRicker fpeak scalar sl sr).2.length - 1) 0 =
        (((⌊sl / 2 / sr⌋).toNat : ℕ) : ℚ) * sr ∧
    (∀ i : ℕ, i + 1 < (createRicker fpeak scalar sl sr).2.length →
      (createRicker fpeak scalar sl sr).2.getD (i + 1) 0 -
        (createRicker fpeak scalar sl sr).2.getD i 0 = sr) ∧
    (∀ i : ℕ, i < (createRicker fpeak scalar sl sr).2.length →
      (createRicker fpeak scalar sl sr).2.getD i 0 =
        -((createRicker fpeak scalar sl sr).2.getD
            ((createRicker fpeak scalar sl sr).2.length - 1 - i) 0)) ∧
    (createRicker fpeak scalar sl sr).2.getD
      (((createRicker fpeak scalar sl sr).2.length - 1) / 2) 0 = 0 := by
  obtain ⟨hlen, hget⟩ := createRicker_time_grid fpeak scalar sl sr hsl hsr
  set iL := (⌊sl / 2 / sr⌋).toNat with hiLdef
  set t := (createRicker fpeak scalar sl sr).2 with htdef
  have hgetD : ∀ i : ℕ, i < t.length → t.getD i 0 = (-(iL : ℚ) + i) * sr := by
    intro i hi
    rw [List.getD_eq_getElem?_getD, hget i (by rw [← hlen]; exact hi)]
    rfl
  refine ⟨hlen, ?_, ?_, ?_, ?_, ?_, ?_, ?_⟩
  · rw [hlen]; exact ⟨iL, by ring⟩
  · intro i hi; exact hget i (by rw [← hlen]; exact hi)
  · rw [hgetD 0 (by rw [hlen]; omega)]; push_cast; ring
  · rw [hgetD (t.length - 1) (by rw [hlen]; omega), hlen]
    push_cast
    ring
  · intro i hi
    rw [hgetD (i + 1) hi, hgetD i (by omega)]
    push_cast
    ring
  · intro i hi
    rw [hgetD i hi, hgetD (t.length - 1 - i) (by omega), hlen]
    have hile : i ≤ 2 * iL := by rw [hlen] at hi; omega
    have : ((2 * iL + 1 - 1 - i : ℕ) : ℚ) = 2 * (iL : ℚ) - i := by
      push_cast [Nat.cast_sub hile]
      ring
    rw [this]
    ring
  · have hl : t.length = 2 * iL + 1 := hlen
    have hmid : (t.length - 1) / 2 = iL := by omega
    rw [hgetD ((t.length - 1) / 2) (by omega), hmid]
    ring

/-- Witness for C2 at the default parameters: signal length 256 ms and
sample interval 4 ms are positive, and the invariants hold there. -/
theorem C2_time_vector_invariants_witness :
    ((0 : ℚ) < 256 ∧ (0 : ℚ) < 4) ∧
    ((createRicker 20 1 256 4).2.length = 2 * (⌊(256 : ℚ) / 2 / 4⌋).toNat + 1 ∧
     Odd (createRicker 20 1 256 4).2.length ∧
     (∀ i : ℕ, i < (createRicker 20 1 256 4).2.length →
       (createRicker 20 1 256 4).2[i]? =
         some ((-(((⌊(256 : ℚ) / 2 / 4⌋).toNat : ℕ) : ℚ) + i) * 4)) ∧
     (createRicker 20 1 256 4).2.getD 0 0 =
       -(((⌊(256 : ℚ) / 2 / 4⌋).toNat : ℕ) : ℚ) * 4 ∧
     (createRicker 20 1 256 4).2.getD ((createRicker 20 1 256 4).2.length - 1) 0 =
       (((⌊(256 : ℚ) / 2 / 4⌋).toNat : ℕ) : ℚ) * 4 ∧
     (∀ i : ℕ, i + 1 < (createRicker 20 1 256 4).2.length →
       (createRicker 20 1 256 4).2.getD (i + 1) 0 -
         (createRicker 20 1 256 4).2.getD i 0 = 4) ∧
     (∀ i : ℕ, i < (createRicker 20 1 256 4).2.length →
       (createRicker 20 1 256 4).2.getD i 0 =
         -((createRicker 20 1 256 4).2.getD
             ((createRicker 20 1 256 4).2.length - 1 - i) 0)) ∧
     (createRicker 20 1 256 4).2.getD
       (((createRicker 20 1 256 4).2.length - 1) / 2) 0 = 0) :=
  ⟨⟨by norm_num, by norm_num⟩,
    C2_time_vector_invariants 20 1 256 4 (by norm_num) (by norm_num)⟩

lemma computePowerSpectrum_ok {ws : List ℝ} {ts : List ℚ}
    (h1 : ws.length % 2 ≠ 0) (h2 : ws.length = ts.length) (h3 : 2 ≤ ts.length)
    (h4 : derivedSampleRate ts ≠ 0) :
    computePowerSpectrum ws ts = .ok (spectrumOf ws ts) := by
  rw [computePowerSpectrum, if_neg h1, if_neg (not_ne_iff.mpr h2),
    if_neg (Nat.not_lt.mpr h3), if_neg h4]

lemma computePowerSpectrum_ok_inv {ws : List ℝ} {ts : List ℚ} {r : SpectrumResult}
    (h : computePowerSpectrum ws ts = .ok r) :
    r = spectrumOf ws ts ∧ ws.length % 2 ≠ 0 ∧ ws.length = ts.length ∧
      2 ≤ ts.length ∧ derivedSampleRate ts ≠ 0 := by
  by_cases c1 : ws.length % 2 = 0
  · rw [computePowerSpectrum, if_pos c1] at h
    exact absurd h (by simp)
  by_cases c2 : ws.length ≠ ts.length
  · rw [computePowerSpectrum, if_neg c1, if_pos c2] at h
    exact absurd h (by simp)
  by_cases c3 : ts.length < 2
  · rw [computePowerSpectrum, if_neg c1, if_neg c2, if_pos c3] at h
    exact absurd h (by simp)
  by_cases c4 : derivedSampleRate ts = 0
  · rw [computePowerSpectrum, if_neg c1, if_neg c2, if_neg c3, if_pos c4] at h
    exact absurd h (by simp)
  rw [computePowerSpectrum, if_neg c1, if_neg c2, if_neg c3, if_neg c4] at h
  refine ⟨?_, c1, not_ne_iff.mp c2, Nat.not_lt.mp c3, c4⟩
  injection h with h
  exact h.symm

/-- C3: computePowerSpectrum reports an invalid-input error (one of the two
explicit ValueError raises) exactly when the amplitude sequence has even
length or the amplitude and time sequences differ in length; the checks run
before any spectral computation, so the result is then the bare error and
no partial result exists.  Every input with odd amplitude length equal to
the time length passes both checks. -/
theorem C3_invalid_input_iff (ws : List ℝ) (ts : List ℚ) :
    (computePowerSpectrum ws ts = .error .evenLength ∨
     computePowerSpectrum ws ts = .error .lengthMismatch) ↔
    (ws.length % 2 = 0 ∨ ws.length ≠ ts.length) := by
  constructor
  · intro h
    by_cases c1 : ws.length % 2 = 0
    · exact Or.inl c1
    by_cases c2 : ws.length ≠ ts.length
    · exact Or.inr c2
    exfalso
    rw [computePowerSpectrum, if_neg c1, if_neg c2] at h
    rcases h with h | h <;> split_ifs at h <;> simp_all
  · intro h
    rcases h with h | h
    · exact Or.inl (by rw [computePowerSpectrum, if_pos h])
    · by_cases c1 : ws.length % 2 = 0
      · exact Or.inl (by rw [computePowerSpectrum, if_pos c1])
      · exact Or.inr (by rw [computePowerSpectrum, if_neg c1, if_pos h])

/-- Witness for C3: the concrete even-length input of the spec raises the
even-length invalid-input error. -/
theorem C3_invalid_input_iff_witness :
    (([(1 : ℝ), 1].length % 2 = 0 ∨ [(1 : ℝ), 1].length ≠ ([(0 : ℚ), 1] : List ℚ).length) ∧
     (computePowerSpectrum [(1 : ℝ), 1] [(0 : ℚ), 1] = .error .evenLength ∨
      computePowerSpectrum [(1 : ℝ), 1] [(0 : ℚ), 1] = .error .lengthMismatch)) :=
  ⟨Or.inl (by simp),
   (C3_invalid_input_iff [(1 : ℝ), 1] [(0 : ℚ), 1]).mpr (Or.inl (by simp))⟩

/-- C6: every synthesized amplitude equals the Ricker formula evaluated at
its sample time; with fpeak = 0 every amplitude is exactly the scalar; a
negated scalar negates every amplitude and leaves the time vector
unchanged (and raises no error, the synthesizer being total). -/
theorem C6_amplitude_formula (fpeak scalar : ℝ) (sl sr : ℚ) :
    (∀ (i : ℕ) (ti : ℚ), (createRicker fpeak scalar sl sr).2[i]? = some ti →
      (createRicker fpeak scalar sl sr).1[i]? =
        some (scalar * (1 - 0.5 * (2 * Real.pi * fpeak) ^ 2 * ((ti : ℝ) / 1000) ^ 2) *
          Real.exp (-0.25 * (2 * Real.pi * fpeak) ^ 2 * ((ti : ℝ) / 1000) ^ 2))) ∧
    (fpeak = 0 → ∀ (i : ℕ) (ti : ℚ), (createRicker fpeak scalar sl sr).2[i]? = some ti →
      (createRicker fpeak scalar sl sr).1[i]? = some scalar) ∧
    (createRicker fpeak (-scalar) sl sr).1 =
      (createRicker fpeak scalar sl sr).1.map (fun a => -a) ∧
    (createRicker fpeak (-scalar) sl sr).2 = (createRicker fpeak scalar sl sr).2 := by
  have hsnd : (createRicker fpeak (-scalar) sl sr).2 = (createRicker fpeak scalar sl sr).2 := by
    rw [createRicker_snd, createRicker_snd]
  have ha : ∀ (i : ℕ) (ti : ℚ), (createRicker fpeak scalar sl sr).2[i]? = some ti →
      (createRicker fpeak scalar sl sr).1[i]? =
        some (scalar * (1 - 0.5 * (2 * Real.pi * fpeak) ^ 2 * ((ti : ℝ) / 1000) ^ 2) *
          Real.exp (-0.25 * (2 * Real.pi * fpeak) ^ 2 * ((ti : ℝ) / 1000) ^ 2)) := by
    intro i ti h
    rw [createRicker_fst, List.getElem?_map, h]
    rfl
  refine ⟨ha, ?_, ?_, hsnd⟩
  · intro h0 i ti h
    rw [ha i ti h, h0]
    norm_num [Real.exp_zero]
  · rw [createRicker_fst fpeak (-scalar) sl sr, hsnd, createRicker_fst fpeak scalar sl sr,
      List.map_map]
    congr 1
    funext ti
    simp only [Function.comp_apply]
    ring

/-- Witness for C6: at fpeak 0, scalar 5, length 256 ms, interval 4 ms, the
first sample sits at time -128 ms and its amplitude is exactly 5. -/
theorem C6_amplitude_formula_witness :
    (createRicker (0 : ℝ) 5 256 4).2[0]? = some (-128 : ℚ) ∧
    (createRicker (0 : ℝ) 5 256 4).1[0]? = some 5 := by
  have h32 : (⌊(256 : ℚ) / 2 / 4⌋).toNat = 32 := by
    have hfl : ⌊(256 : ℚ) / 2 / 4⌋ = 32 := by norm_num
    omega
  have hget := (createRicker_time_grid 0 5 256 4 (by norm_num) (by norm_num)).2 0
    (by rw [h32]; norm_num)
  rw [h32] at hget
  norm_num at hget
  exact ⟨hget, (C6_amplitude_formula 0 5 256 4).2.1 rfl 0 (-128) hget⟩

/-! Degenerate one-sample wavelet: signal length 1 ms, sample interval 4 ms. -/

lemma createRicker_one_four_snd (fpeak scalar : ℝ) :
    (createRicker fpeak scalar 1 4).2 = [0] := by
  rw [createRicker_snd]
  have h0 : truncToZero ((1 : ℚ) / 2 / 4) = 0 := by
    rw [truncToZero_of_nonneg (by norm_num)]
    norm_num
  rw [h0]
  have hc : ⌈((((0 : ℤ) : ℚ) + 1) * 4 - -((0 : ℤ) : ℚ) * 4) / 4⌉.toNat = 1 := by norm_num
  rw [arangeQ, hc]
  norm_num [List.range_succ]

lemma createRicker_one_four_fst (fpeak scalar : ℝ) :
    (createRicker fpeak scalar 1 4).1 = [scalar] := by
  rw [createRicker_fst, createRicker_one_four_snd]
  norm_num [Real.exp_zero]

lemma computePowerSpectrum_one_four (fpeak scalar : ℝ) :
    computePowerSpectrum (createRicker fpeak scalar 1 4).1 (createRicker fpeak scalar 1 4).2 =
      .error .indexError := by
  rw [createRicker_one_four_fst, createRicker_one_four_snd, computePowerSpectrum]
  norm_num

/-- C8 (amended): the degenerate parameters signalLength 1 ms and
sampleInterval 4 ms synthesize the length-one series times = [0],
amplitudes = [scalar] without error, but the analyzer applied to that
series fails with an index error while reading timeVector[1], returning no
spectrum at all. -/
theorem C8_degenerate_series (fpeak scalar : ℝ) :
    (createRicker fpeak scalar 1 4).2 = [0] ∧
    (createRicker fpeak scalar 1 4).1 = [scalar] ∧
    computePowerSpectrum (createRicker fpeak scalar 1 4).1 (createRicker fpeak scalar 1 4).2 =
      .error .indexError :=
  ⟨createRicker_one_four_snd fpeak scalar, createRicker_one_four_fst fpeak scalar,
    computePowerSpectrum_one_four fpeak scalar⟩

/-- Counterexample to C8 as stated: at the default peak frequency and unit
scalar the degenerate series is times = [0], amplitudes = [1], yet the
analyzer raises an index error instead of returning the spectrum
power = [1], powerDb = [0], frequencies = [0] promised by the claim. -/
theorem C8_degenerate_counterexample :
    (createRicker (20 : ℝ) 1 1 4).2 = [0] ∧
    (createRicker (20 : ℝ) 1 1 4).1 = [1] ∧
    computePowerSpectrum (createRicker (20 : ℝ) 1 1 4).1 (createRicker (20 : ℝ) 1 1 4).2 =
      .error .indexError :=
  ⟨createRicker_one_four_snd 20 1, createRicker_one_four_fst 20 1,
    computePowerSpectrum_one_four 20 1⟩

/-! Frequency-bin lemmas. -/

lemma List.headD_eq_getElem? (l : List ℚ) (d : ℚ) : l.headD d = l[0]?.getD d := by
  cases l <;> simp

lemma List.getLastD_eq_getElem? (l : List ℚ) (d : ℚ) :
    l.getLastD d = (l[l.length - 1]?).getD d := by
  rw [List.getLastD_eq_getLast?, List.getLast?_eq_getElem?]

lemma spectrumOf_freq (ws : List ℝ) (ts : List ℚ) :
    (spectrumOf ws ts).freq =
      (arangeQ 0 ((derivedIndexLimit ts : ℚ) + 1) 1).map
        (fun i => (1 / ((derivedSampleRate ts / 1000) *
          ((2 * derivedIndexLimit ts + 1 : ℤ) : ℚ))) * i) := by
  rfl

lemma spectrumOf_freq_length (ws : List ℝ) (ts : List ℚ) :
    (spectrumOf ws ts).freq.length = (derivedIndexLimit ts + 1).toNat := by
  rw [spectrumOf_freq, List.length_map, arangeQ_length]
  have harg : (((derivedIndexLimit ts : ℚ)) + 1 - 0) / 1 =
      ((derivedIndexLimit ts + 1 : ℤ) : ℚ) := by
    push_cast
    ring
  rw [harg, Int.ceil_intCast]

lemma spectrumOf_freq_getElem? (ws : List ℝ) (ts : List ℚ) (i : ℕ)
    (h : (i : ℤ) < derivedIndexLimit ts + 1) :
    (spectrumOf ws ts).freq[i]? =
      some ((1 / ((derivedSampleRate ts / 1000) *
        ((2 * derivedIndexLimit ts + 1 : ℤ) : ℚ))) * i) := by
  have hlt : i < (⌈(((derivedIndexLimit ts : ℚ)) + 1 - 0) / 1⌉).toNat := by
    have harg : (((derivedIndexLimit ts : ℚ)) + 1 - 0) / 1 =
        ((derivedIndexLimit ts + 1 : ℤ) : ℚ) := by
      push_cast
      ring
    rw [harg, Int.ceil_intCast]
    omega
  rw [spectrumOf_freq, List.getElem?_map, arangeQ_getElem? _ _ _ i hlt]
  simp

/-! Facts about the default module-level wavelet. -/

lemma defaultRicker_facts :
    defaultRicker.2.length = 65 ∧ defaultRicker.1.length = 65 ∧
    derivedSampleRate defaultRicker.2 = 4 ∧
    derivedSignalLength defaultRicker.2 = 256 ∧
    derivedIndexLimit defaultRicker.2 = 32 := by
  have h32 : (⌊(256 : ℚ) / 2 / 4⌋).toNat = 32 := by
    have hfl : ⌊(256 : ℚ) / 2 / 4⌋ = 32 := by norm_num
    omega
  obtain ⟨hlen, hget⟩ := createRicker_time_grid 20 1 256 4 (by norm_num) (by norm_num)
  rw [h32] at hlen hget
  have hlen65 : defaultRicker.2.length = 65 := by rw [defaultRicker, hlen]
  have hg0 : defaultRicker.2[0]? = some (-128 : ℚ) := by
    have := hget 0 (by norm_num)
    rw [defaultRicker]
    rw [this]
    norm_num
  have hg1 : defaultRicker.2[1]? = some (-124 : ℚ) := by
    have := hget 1 (by norm_num)
    rw [defaultRicker]
    rw [this]
    norm_num
  have hg64 : defaultRicker.2[64]? = some (128 : ℚ) := by
    have := hget 64 (by norm_num)
    rw [defaultRicker]
    rw [this]
    norm_num
  have hsr : derivedSampleRate defaultRicker.2 = 4 := by
    rw [derivedSampleRate, List.getD_eq_getElem?_getD, List.headD_eq_getElem?, hg0, hg1]
    norm_num
  have hsl : derivedSignalLength defaultRicker.2 = 256 := by
    rw [derivedSignalLength, List.getLastD_eq_getElem?, List.headD_eq_getElem?, hlen65]
    norm_num [hg0, hg64]
  refine ⟨hlen65, ?_, hsr, hsl, ?_⟩
  · rw [defaultRicker, createRicker_fst, List.length_map, ← defaultRicker, hlen65]
  · rw [derivedIndexLimit, hsr, hsl, truncToZero_of_nonneg (by norm_num)]
    norm_num

lemma defaultRicker_ok :
    computePowerSpectrum defaultRicker.1 defaultRicker.2 =
      .ok (spectrumOf defaultRicker.1 defaultRicker.2) := by
  obtain ⟨h2, h1, hsr, _, _⟩ := defaultRicker_facts
  exact computePowerSpectrum_ok (by omega) (by omega) (by omega) (by rw [hsr]; norm_num)

/-- C1: on every successful analysis the frequency vector has
indexLimit + 1 entries and entry i equals scaleFactor * i with
scaleFactor = 1 / (sampleInterval_seconds * (2 * indexLimit + 1)), the
two-sided bin-width formula; at the default parameters indexLimit is 32,
there are 33 bins, bin 1 is 50/13 which is 3.846 Hz to within 0.001, and
bin 32 is 1600/13 which is 123.08 Hz to within 0.01. -/
theorem C1_frequency_bins :
    (∀ (ws : List ℝ) (ts : List ℚ) (r : SpectrumResult),
      computePowerSpectrum ws ts = .ok r →
      r.freq.length = (derivedIndexLimit ts + 1).toNat ∧
      ∀ i : ℕ, (i : ℤ) ≤ derivedIndexLimit ts →
        r.freq[i]? = some ((1 / ((derivedSampleRate ts / 1000) *
          ((2 * derivedIndexLimit ts + 1 : ℤ) : ℚ))) * i)) ∧
    (computePowerSpectrum defaultRicker.1 defaultRicker.2 =
       .ok (spectrumOf defaultRicker.1 defaultRicker.2) ∧
     derivedIndexLimit defaultRicker.2 = 32 ∧
     (spectrumOf defaultRicker.1 defaultRicker.2).freq.length = 33 ∧
     (spectrumOf defaultRicker.1 defaultRicker.2).freq[1]? = some (50 / 13) ∧
     (spectrumOf defaultRicker.1 defaultRicker.2).freq[32]? = some (1600 / 13) ∧
     |(50 : ℚ) / 13 - 3846 / 1000| < 1 / 1000 ∧
     |(1600 : ℚ) / 13 - 12308 / 100| < 1 / 100) := by
  have hgen : ∀ (ws : List ℝ) (ts : List ℚ) (r : SpectrumResult),
      computePowerSpectrum ws ts = .ok r →
      r.freq.length = (derivedIndexLimit ts + 1).toNat ∧
      ∀ i : ℕ, (i : ℤ) ≤ derivedIndexLimit ts →
        r.freq[i]? = some ((1 / ((derivedSampleRate ts / 1000) *
          ((2 * derivedIndexLimit ts + 1 : ℤ) : ℚ))) * i) := by
    intro ws ts r hok
    obtain ⟨hr, -, -, -, -⟩ := computePowerSpectrum_ok_inv hok
    subst hr
    exact ⟨spectrumOf_freq_length ws ts,
      fun i hi => spectrumOf_freq_getElem? ws ts i (by omega)⟩
  obtain ⟨-, -, hsr, -, hiL⟩ := defaultRicker_facts
  refine ⟨hgen, defaultRicker_ok, hiL, ?_, ?_, ?_,
    by rw [abs_sub_lt_iff]; constructor <;> norm_num,
    by rw [abs_sub_lt_iff]; constructor <;> norm_num⟩
  · rw [spectrumOf_freq_length, hiL]
    omega
  · rw [spectrumOf_freq_getElem? _ _ 1 (by rw [hiL]; norm_num), hsr, hiL]
    norm_num
  · rw [spectrumOf_freq_getElem? _ _ 32 (by rw [hiL]; norm_num), hsr, hiL]
    norm_num

/-- Witness for C1: the general bin property applied to the successful
default analysis. -/
theorem C1_frequency_bins_witness :
    computePowerSpectrum defaultRicker.1 defaultRicker.2 =
      .ok (spectrumOf defaultRicker.1 defaultRicker.2) ∧
    ((spectrumOf defaultRicker.1 defaultRicker.2).freq.length =
      (derivedIndexLimit defaultRicker.2 + 1).toNat ∧
     ∀ i : ℕ, (i : ℤ) ≤ derivedIndexLimit defaultRicker.2 →
       (spectrumOf defaultRicker.1 defaultRicker.2).freq[i]? =
         some ((1 / ((derivedSampleRate defaultRicker.2 / 1000) *
           ((2 * derivedIndexLimit defaultRicker.2 + 1 : ℤ) : ℚ))) * i)) :=
  ⟨defaultRicker_ok,
    C1_frequency_bins.1 defaultRicker.1 defaultRicker.2
      (spectrumOf defaultRicker.1 defaultRicker.2) defaultRicker_ok⟩

/-! One-sided power-vector structure. -/

lemma headD_getElem? {α : Type} (l : List α) (d : α) : l.headD d = l[0]?.getD d := by
  cases l <;> simp

lemma powerTwoSided_length (ws : List ℝ) : (powerTwoSided ws).length = ws.length := by
  simp [powerTwoSided]

lemma powerTwoSided_getElem? (ws : List ℝ) (k : ℕ) (h : k < ws.length) :
    (powerTwoSided ws)[k]? = some (Complex.abs (dftOrtho ws k) ^ 2) := by
  simp [powerTwoSided, List.getElem?_map, List.getElem?_range h]

lemma pySlice1_of_nonneg {α : Type} (l : List α) (stop : ℤ) (h : 0 ≤ stop) :
    pySlice1 l stop = (l.take (min stop.toNat l.length)).drop 1 := by
  rw [pySlice1, if_neg (not_lt.mpr h)]

lemma pySlice1_length_of_nonneg {α : Type} (l : List α) (stop : ℤ) (h : 0 ≤ stop) :
    (pySlice1 l stop).length = min stop.toNat l.length - 1 := by
  rw [pySlice1_of_nonneg l stop h, List.length_drop, List.length_take]
  omega

lemma pySlice1_getElem?_of_nonneg {α : Type} (l : List α) (stop : ℤ) (h : 0 ≤ stop)
    (i : ℕ) (hi : i + 1 < min stop.toNat l.length) :
    (pySlice1 l stop)[i]? = l[i + 1]? := by
  rw [pySlice1_of_nonneg l stop h, List.getElem?_drop, List.getElem?_take]
  rw [if_pos (by omega)]
  congr 1
  omega

lemma spectrumOf_power (ws : List ℝ) (ts : List ℚ) :
    (spectrumOf ws ts).power =
      (powerTwoSided ws).headD 0 ::
        (pySlice1 (powerTwoSided ws) (derivedIndexLimit ts + 1)).map (fun p => 2 * p) := by
  rfl

lemma spectrumOf_powerNormdB (ws : List ℝ) (ts : List ℚ) :
    (spectrumOf ws ts).powerNormdB =
      (spectrumOf ws ts).power.map
        (fun p => dbEntry p (npMax (spectrumOf ws ts).power)) := by
  rfl

/-- C4 (amended): on every successful analysis whose derived index limit is
nonnegative (as a truncation it then agrees with the floor of the claim)
and smaller than the sample count, the one-sided power vector is the DC
squared-magnitude, never doubled, followed by the doubled squared
magnitudes of bins 1..indexLimit, and power, powerDb and frequencies all
have exactly indexLimit + 1 entries. -/
theorem C4_one_sided_fold (ws : List ℝ) (ts : List ℚ) (r : SpectrumResult)
    (hok : computePowerSpectrum ws ts = .ok r)
    (h0 : 0 ≤ derivedSignalLength ts / 2 / derivedSampleRate ts)
    (hlt : derivedIndexLimit ts < (ws.length : ℤ)) :
    derivedIndexLimit ts = ⌊derivedSignalLength ts / 2 / derivedSampleRate ts⌋ ∧
    r.power.length = (derivedIndexLimit ts + 1).toNat ∧
    r.powerNormdB.length = (derivedIndexLimit ts + 1).toNat ∧
    r.freq.length = (derivedIndexLimit ts + 1).toNat ∧
    r.power[0]? = some (Complex.abs (dftOrtho ws 0) ^ 2) ∧
    (∀ i : ℕ, 1 ≤ i → (i : ℤ) ≤ derivedIndexLimit ts →
      r.power[i]? = some (2 * Complex.abs (dftOrtho ws i) ^ 2)) := by
  obtain ⟨hr, -, hlen, hts2, -⟩ := computePowerSpectrum_ok_inv hok
  subst hr
  have hNpos : 0 < ws.length := by omega
  have hiL0 : 0 ≤ derivedIndexLimit ts := by
    rw [derivedIndexLimit, truncToZero_of_nonneg h0]
    exact Int.floor_nonneg.mpr h0
  have hstop : 0 ≤ derivedIndexLimit ts + 1 := by omega
  have hmin : min (derivedIndexLimit ts + 1).toNat (powerTwoSided ws).length =
      (derivedIndexLimit ts + 1).toNat := by
    rw [powerTwoSided_length]
    omega
  refine ⟨by rw [derivedIndexLimit, truncToZero_of_nonneg h0], ?_, ?_, ?_, ?_, ?_⟩
  · rw [spectrumOf_power, List.length_cons, List.length_map,
      pySlice1_length_of_nonneg _ _ hstop, hmin]
    omega
  · rw [spectrumOf_powerNormdB, List.length_map, spectrumOf_power, List.length_cons,
      List.length_map, pySlice1_length_of_nonneg _ _ hstop, hmin]
    omega
  · exact spectrumOf_freq_length ws ts
  · rw [spectrumOf_power, List.getElem?_cons_zero, headD_getElem?,
      powerTwoSided_getElem? ws 0 hNpos]
    rfl
  · intro i h1 hi
    obtain ⟨j, rfl⟩ : ∃ j, i = j + 1 := ⟨i - 1, by omega⟩
    rw [spectrumOf_power, List.getElem?_cons_succ, List.getElem?_map,
      pySlice1_getElem?_of_nonneg _ _ hstop j (by rw [hmin]; omega),
      powerTwoSided_getElem? ws (j + 1) (by omega)]
    rfl

/-! Concrete three-sample inputs exercising the fold. -/

lemma derived_three (a b c : ℚ) :
    derivedSampleRate [a, b, c] = b - a ∧ derivedSignalLength [a, b, c] = c - a := by
  constructor
  · rw [derivedSampleRate]
    simp
  · rw [derivedSignalLength, List.getLastD_eq_getElem?]
    simp

lemma cps_ok_three (ws : List ℝ) (a b c : ℚ) (hws : ws.length = 3) (hab : b - a ≠ 0) :
    computePowerSpectrum ws [a, b, c] = .ok (spectrumOf ws [a, b, c]) :=
  computePowerSpectrum_ok (by omega) (by simp [hws]) (by simp)
    (by rw [(derived_three a b c).1]; exact hab)

lemma derivedIndexLimit_three (a b c : ℚ) (h : 0 ≤ (c - a) / 2 / (b - a)) :
    derivedIndexLimit [a, b, c] = ⌊(c - a) / 2 / (b - a)⌋ := by
  rw [derivedIndexLimit, (derived_three a b c).1, (derived_three a b c).2,
    truncToZero_of_nonneg h]

lemma trunc_input_facts :
    computePowerSpectrum [(1 : ℝ), 0, 0] [(0 : ℚ), 1, 100] =
      .ok (spectrumOf [(1 : ℝ), 0, 0] [(0 : ℚ), 1, 100]) ∧
    derivedIndexLimit [(0 : ℚ), 1, 100] = 50 := by
  refine ⟨cps_ok_three [(1 : ℝ), 0, 0] 0 1 100 (by simp) (by norm_num), ?_⟩
  rw [derivedIndexLimit_three 0 1 100 (by norm_num)]
  norm_num

/-- Counterexample to C4 as stated: the accepted input with amplitudes
[1, 0, 0] and times [0, 1, 100] has derived indexLimit 50, but the
returned power and powerDb vectors have 3 entries while frequencies has
51, so not every accepted input yields vectors of indexLimit + 1
entries. -/
theorem C4_counterexample :
    computePowerSpectrum [(1 : ℝ), 0, 0] [(0 : ℚ), 1, 100] =
      .ok (spectrumOf [(1 : ℝ), 0, 0] [(0 : ℚ), 1, 100]) ∧
    derivedIndexLimit [(0 : ℚ), 1, 100] = 50 ∧
    (spectrumOf [(1 : ℝ), 0, 0] [(0 : ℚ), 1, 100]).power.length = 3 ∧
    (spectrumOf [(1 : ℝ), 0, 0] [(0 : ℚ), 1, 100]).powerNormdB.length = 3 ∧
    (spectrumOf [(1 : ℝ), 0, 0] [(0 : ℚ), 1, 100]).freq.length = 51 := by
  obtain ⟨hok, hiL⟩ := trunc_input_facts
  have hplen : (spectrumOf [(1 : ℝ), 0, 0] [(0 : ℚ), 1, 100]).power.length = 3 := by
    rw [spectrumOf_power, List.length_cons, List.length_map,
      pySlice1_length_of_nonneg _ _ (by rw [hiL]; norm_num), powerTwoSided_length, hiL]
    rfl
  refine ⟨hok, hiL, hplen, ?_, ?_⟩
  · rw [spectrumOf_powerNormdB, List.length_map, hplen]
  · rw [spectrumOf_freq_length, hiL]
    rfl

/-- Witness for C4: the accepted input with amplitudes [1, 0, 0] and times
[0, 1, 2] satisfies the amended hypotheses and its power vector has
indexLimit + 1 entries. -/
theorem C4_one_sided_fold_witness :
    computePowerSpectrum [(1 : ℝ), 0, 0] [(0 : ℚ), 1, 2] =
      .ok (spectrumOf [(1 : ℝ), 0, 0] [(0 : ℚ), 1, 2]) ∧
    0 ≤ derivedSignalLength [(0 : ℚ), 1, 2] / 2 / derivedSampleRate [(0 : ℚ), 1, 2] ∧
    derivedIndexLimit [(0 : ℚ), 1, 2] < ([(1 : ℝ), 0, 0].length : ℤ) ∧
    (spectrumOf [(1 : ℝ), 0, 0] [(0 : ℚ), 1, 2]).power.length =
      (derivedIndexLimit [(0 : ℚ), 1, 2] + 1).toNat := by
  obtain ⟨hsr, hsl⟩ := derived_three (0 : ℚ) 1 2
  have h0 : 0 ≤ derivedSignalLength [(0 : ℚ), 1, 2] / 2 / derivedSampleRate [(0 : ℚ), 1, 2] := by
    rw [hsr, hsl]
    norm_num
  have hok := cps_ok_three [(1 : ℝ), 0, 0] 0 1 2 (by simp) (by norm_num)
  have hiL : derivedIndexLimit [(0 : ℚ), 1, 2] = 1 := by
    rw [derivedIndexLimit_three 0 1 2 (by norm_num)]
    norm_num
  have hlt : derivedIndexLimit [(0 : ℚ), 1, 2] < ([(1 : ℝ), 0, 0].length : ℤ) := by
    rw [hiL]
    simp
  exact ⟨hok, h0, hlt,
    (C4_one_sided_fold [(1 : ℝ), 0, 0] [(0 : ℚ), 1, 2] _ hok h0 hlt).2.1⟩

/-- C9 (amended): there are accepted inputs whose derived indexLimit is at
least the sample count N; on every such input the slice truncates, power
and powerDb come back with N entries, fewer than indexLimit + 1, while
frequencies has indexLimit + 1 entries, so the three vectors do not share
one length.  (The truncation threshold is indexLimit > N - 1, not
indexLimit > (N-1)/2.) -/
theorem C9_truncating_fold :
    (∃ (ws : List ℝ) (ts : List ℚ) (r : SpectrumResult),
      computePowerSpectrum ws ts = .ok r ∧
      (ws.length : ℤ) - 1 < derivedIndexLimit ts) ∧
    (∀ (ws : List ℝ) (ts : List ℚ) (r : SpectrumResult),
      computePowerSpectrum ws ts = .ok r →
      (ws.length : ℤ) - 1 < derivedIndexLimit ts →
      r.power.length = ws.length ∧ r.powerNormdB.length = ws.length ∧
      r.freq.length = (derivedIndexLimit ts + 1).toNat ∧
      (r.power.length : ℤ) < derivedIndexLimit ts + 1 ∧
      r.power.length ≠ r.freq.length) := by
  constructor
  · obtain ⟨hok, hiL⟩ := trunc_input_facts
    exact ⟨[(1 : ℝ), 0, 0], [(0 : ℚ), 1, 100], _, hok, by rw [hiL]; simp⟩
  · intro ws ts r hok hbig
    obtain ⟨hr, -, hlen, hts2, -⟩ := computePowerSpectrum_ok_inv hok
    subst hr
    have hN : 2 ≤ ws.length := by omega
    have hstop : 0 ≤ derivedIndexLimit ts + 1 := by omega
    have hmin : min (derivedIndexLimit ts + 1).toNat (powerTwoSided ws).length =
        ws.length := by
      rw [powerTwoSided_length]
      omega
    have hplen : (spectrumOf ws ts).power.length = ws.length := by
      rw [spectrumOf_power, List.length_cons, List.length_map,
        pySlice1_length_of_nonneg _ _ hstop, hmin]
      omega
    refine ⟨hplen, ?_, spectrumOf_freq_length ws ts, ?_, ?_⟩
    · rw [spectrumOf_powerNormdB, List.length_map, hplen]
    · rw [hplen]
      omega
    · rw [hplen, spectrumOf_freq_length]
      omega

/-- Witness for C9: the amended truncation property applied at the
accepted input with amplitudes [1, 0, 0] and times [0, 1, 100]. -/
theorem C9_truncating_fold_witness :
    computePowerSpectrum [(1 : ℝ), 0, 0] [(0 : ℚ), 1, 100] =
      .ok (spectrumOf [(1 : ℝ), 0, 0] [(0 : ℚ), 1, 100]) ∧
    ([(1 : ℝ), 0, 0].length : ℤ) - 1 < derivedIndexLimit [(0 : ℚ), 1, 100] ∧
    (spectrumOf [(1 : ℝ), 0, 0] [(0 : ℚ), 1, 100]).power.length ≠
      (spectrumOf [(1 : ℝ), 0, 0] [(0 : ℚ), 1, 100]).freq.length := by
  obtain ⟨hok, hiL⟩ := trunc_input_facts
  have hbig : ([(1 : ℝ), 0, 0].length : ℤ) - 1 < derivedIndexLimit [(0 : ℚ), 1, 100] := by
    rw [hiL]
    simp
  exact ⟨hok, hbig,
    (C9_truncating_fold.2 [(1 : ℝ), 0, 0] [(0 : ℚ), 1, 100] _ hok hbig).2.2.2.2⟩

/-- Counterexample to C9 as stated: the accepted input with amplitudes
[1, 0, 0] and times [0, 1, 4] has derived indexLimit 2, strictly greater
than (N-1)/2 = 1 for N = 3 samples, yet power, powerDb and frequencies all
have 3 = indexLimit + 1 entries: no truncation and no length mismatch
occurs at this input, so the claimed threshold indexLimit > (N-1)/2 is
wrong. -/
theorem C9_counterexample :
    computePowerSpectrum [(1 : ℝ), 0, 0] [(0 : ℚ), 1, 4] =
      .ok (spectrumOf [(1 : ℝ), 0, 0] [(0 : ℚ), 1, 4]) ∧
    derivedIndexLimit [(0 : ℚ), 1, 4] = 2 ∧
    (([(1 : ℝ), 0, 0].length : ℤ) - 1) / 2 < derivedIndexLimit [(0 : ℚ), 1, 4] ∧
    (spectrumOf [(1 : ℝ), 0, 0] [(0 : ℚ), 1, 4]).power.length = 3 ∧
    (spectrumOf [(1 : ℝ), 0, 0] [(0 : ℚ), 1, 4]).powerNormdB.length = 3 ∧
    (spectrumOf [(1 : ℝ), 0, 0] [(0 : ℚ), 1, 4]).freq.length = 3 ∧
    (derivedIndexLimit [(0 : ℚ), 1, 4] + 1).toNat = 3 := by
  have hok := cps_ok_three [(1 : ℝ), 0, 0] 0 1 4 (by simp) (by norm_num)
  have hiL : derivedIndexLimit [(0 : ℚ), 1, 4] = 2 := by
    rw [derivedIndexLimit_three 0 1 4 (by norm_num)]
    norm_num
  have hplen : (spectrumOf [(1 : ℝ), 0, 0] [(0 : ℚ), 1, 4]).power.length = 3 := by
    rw [spectrumOf_power, List.length_cons, List.length_map,
      pySlice1_length_of_nonneg _ _ (by rw [hiL]; norm_num), powerTwoSided_length, hiL]
    rfl
  refine ⟨hok, hiL, by rw [hiL]; simp, hplen, ?_, ?_, by rw [hiL]; rfl⟩
  · rw [spectrumOf_powerNormdB, List.length_map, hplen]
  · rw [spectrumOf_freq_length, hiL]
    rfl

/-! Maximum and decibel lemmas. -/

lemma le_foldl_max (t : List ℝ) (a : ℝ) : a ≤ t.foldl max a := by
  induction t generalizing a with
  | nil => exact le_refl a
  | cons b t ih => exact le_trans (le_max_left a b) (ih (max a b))

lemma mem_le_foldl_max (t : List ℝ) (a : ℝ) : ∀ p ∈ t, p ≤ t.foldl max a := by
  induction t generalizing a with
  | nil => intro p hp; simp at hp
  | cons b t ih =>
    intro p hp
    simp only [List.foldl_cons]
    rcases List.mem_cons.mp hp with rfl | hp
    · exact le_trans (le_max_right a p) (le_foldl_max t (max a p))
    · exact ih (max a b) p hp

lemma foldl_max_mem (t : List ℝ) (a : ℝ) : t.foldl max a = a ∨ t.foldl max a ∈ t := by
  induction t generalizing a with
  | nil => exact Or.inl rfl
  | cons b t ih =>
    simp only [List.foldl_cons]
    rcases ih (max a b) with h | h
    · rcases max_choice a b with hab | hab
      · exact Or.inl (by rw [h, hab])
      · exact Or.inr (by rw [h, hab]; exact List.mem_cons_self b t)
    · exact Or.inr (List.mem_cons_of_mem b h)

lemma npMax_mem {l : List ℝ} (h : l ≠ []) : npMax l ∈ l := by
  cases l with
  | nil => exact absurd rfl h
  | cons a t =>
    show t.foldl max a ∈ a :: t
    rcases foldl_max_mem t a with h1 | h1
    · rw [h1]; exact List.mem_cons_self a t
    · exact List.mem_cons_of_mem a h1

lemma le_npMax {l : List ℝ} {p : ℝ} (h : p ∈ l) : p ≤ npMax l := by
  cases l with
  | nil => simp at h
  | cons a t =>
    show p ≤ t.foldl max a
    rcases List.mem_cons.mp h with rfl | hp
    · exact le_foldl_max t p
    · exact mem_le_foldl_max t a p hp

lemma dbEntry_pos {p m : ℝ} (hp : 0 < p) (hm : 0 < m) :
    dbEntry p m = some (10 * Real.logb 10 (p / m)) := if_pos (div_pos hp hm)

lemma dbEntry_self {m : ℝ} (hm : 0 < m) : dbEntry m m = some 0 := by
  rw [dbEntry, div_self (ne_of_gt hm), if_pos one_pos, Real.logb_one, mul_zero]

lemma dbEntry_none_of_nonpos {p m : ℝ} (h : p / m ≤ 0) : dbEntry p m = none :=
  if_neg (not_lt.mpr h)

/-- C5 (amended): on every successful analysis whose one-sided power vector
attains a positive maximum, each bin with positive power has
powerDb = 10*log10(power/max(power)) as a finite real, some bin holding the
global maximum has powerDb exactly 0, and every finite powerDb value is at
most 0.  (Bins with zero power have no finite dB value, and an accepted
input can have an identically zero one-sided power vector even though its
amplitudes are not all zero, so the positive-maximum hypothesis is
necessary.) -/
theorem C5_db_normalization (ws : List ℝ) (ts : List ℚ) (r : SpectrumResult)
    (hok : computePowerSpectrum ws ts = .ok r)
    (hM : 0 < npMax r.power) :
    (∀ (i : ℕ) (p : ℝ), r.power[i]? = some p → 0 < p →
      r.powerNormdB[i]? = some (some (10 * Real.logb 10 (p / npMax r.power)))) ∧
    (∃ i : ℕ, r.power[i]? = some (npMax r.power) ∧
      r.powerNormdB[i]? = some (some 0)) ∧
    (∀ (i : ℕ) (x : ℝ), r.powerNormdB[i]? = some (some x) → x ≤ 0) := by
  obtain ⟨hr, -, -, -, -⟩ := computePowerSpectrum_ok_inv hok
  subst hr
  refine ⟨?_, ?_, ?_⟩
  · intro i p hp hppos
    rw [spectrumOf_powerNormdB, List.getElem?_map, hp]
    exact congrArg some (dbEntry_pos hppos hM)
  · have hne : (spectrumOf ws ts).power ≠ [] := by
      rw [spectrumOf_power]
      exact List.cons_ne_nil _ _
    obtain ⟨i, hi⟩ := List.mem_iff_getElem?.mp (npMax_mem hne)
    refine ⟨i, hi, ?_⟩
    rw [spectrumOf_powerNormdB, List.getElem?_map, hi]
    exact congrArg some (dbEntry_self hM)
  · intro i x hx
    rw [spectrumOf_powerNormdB, List.getElem?_map] at hx
    cases hP : (spectrumOf ws ts).power[i]? with
    | none => rw [hP] at hx; simp at hx
    | some p =>
      rw [hP] at hx
      have hdb : dbEntry p (npMax (spectrumOf ws ts).power) = some x := by
        simpa using hx
      by_cases hq : 0 < p / npMax (spectrumOf ws ts).power
      · rw [dbEntry, if_pos hq] at hdb
        injection hdb with hdb
        have hpmem : p ∈ (spectrumOf ws ts).power := List.mem_iff_getElem?.mpr ⟨i, hP⟩
        have hq1 : p / npMax (spectrumOf ws ts).power ≤ 1 :=
          (div_le_one hM).mpr (le_npMax hpmem)
        have hlogb : Real.logb 10 (p / npMax (spectrumOf ws ts).power) ≤ 0 :=
          Real.logb_nonpos (by norm_num) (le_of_lt hq) hq1
        rw [← hdb]
        linarith
      · rw [dbEntry, if_neg hq] at hdb
        exact absurd hdb (by simp)

/-! Concrete spectra used by the decibel claims. -/

lemma powerTwoSided_three (ws : List ℝ) (h : ws.length = 3) :
    powerTwoSided ws = [Complex.abs (dftOrtho ws 0) ^ 2, Complex.abs (dftOrtho ws 1) ^ 2,
      Complex.abs (dftOrtho ws 2) ^ 2] := by
  rw [powerTwoSided, h]
  rfl

lemma dftOrtho_osc_zero : dftOrtho [(1 : ℝ), -2, 1] 0 = 0 := by
  rw [dftOrtho]
  norm_num [Finset.sum_range_succ, Complex.exp_zero, List.getD]

lemma dftOrtho_delta (k : ℕ) : dftOrtho [(1 : ℝ), 0, 0] k = ((1 / Real.sqrt 3 : ℝ) : ℂ) := by
  rw [dftOrtho]
  norm_num [Finset.sum_range_succ, Complex.exp_zero, List.getD]

lemma c5_cex_power :
    (spectrumOf [(1 : ℝ), -2, 1] [(0 : ℚ), 100, 201 / 2]).power = [0] := by
  have hiL : derivedIndexLimit [(0 : ℚ), 100, 201 / 2] = 0 := by
    rw [derivedIndexLimit_three 0 100 (201 / 2) (by norm_num)]
    norm_num
  rw [spectrumOf_power, hiL]
  have hslice : pySlice1 (powerTwoSided [(1 : ℝ), -2, 1]) (0 + 1) = [] := by
    apply List.length_eq_zero.mp
    rw [pySlice1_length_of_nonneg _ _ (by norm_num), powerTwoSided_length]
    omega
  rw [hslice]
  simp only [List.map_nil]
  rw [headD_getElem?, powerTwoSided_getElem? _ 0 (by simp), dftOrtho_osc_zero]
  simp

/-- Counterexample to C5 as stated: amplitudes [1, -2, 1] with times
[0, 100, 100.5] are accepted and not all zero, but the derived indexLimit
is 0, the single one-sided power entry is the squared DC coefficient which
is exactly 0, so the dB normalization computes 10*log10(0/0) and the
returned powerDb vector is [none]: no bin carries the value 0 dB. -/
theorem C5_counterexample :
    [(1 : ℝ), -2, 1] ≠ [0, 0, 0] ∧
    computePowerSpectrum [(1 : ℝ), -2, 1] [(0 : ℚ), 100, 201 / 2] =
      .ok (spectrumOf [(1 : ℝ), -2, 1] [(0 : ℚ), 100, 201 / 2]) ∧
    (spectrumOf [(1 : ℝ), -2, 1] [(0 : ℚ), 100, 201 / 2]).power = [0] ∧
    (spectrumOf [(1 : ℝ), -2, 1] [(0 : ℚ), 100, 201 / 2]).powerNormdB = [none] := by
  refine ⟨by simp, cps_ok_three [(1 : ℝ), -2, 1] 0 100 (201 / 2) (by simp) (by norm_num),
    c5_cex_power, ?_⟩
  rw [spectrumOf_powerNormdB, c5_cex_power]
  simp only [List.map_cons, List.map_nil]
  rw [show npMax [(0 : ℝ)] = 0 from rfl, dbEntry_none_of_nonpos (by norm_num)]

lemma c5_wit_power :
    (spectrumOf [(1 : ℝ), 0, 0] [(-1 : ℚ), 0, 1]).power = [1 / 3, 2 / 3] := by
  have hiL : derivedIndexLimit [(-1 : ℚ), 0, 1] = 1 := by
    rw [derivedIndexLimit_three (-1) 0 1 (by norm_num)]
    norm_num
  have habs : ∀ k : ℕ, Complex.abs (dftOrtho [(1 : ℝ), 0, 0] k) ^ 2 = 1 / 3 := by
    intro k
    rw [dftOrtho_delta k, Complex.abs_ofReal, abs_of_nonneg (by positivity), div_pow,
      one_pow, Real.sq_sqrt (by norm_num)]
  have hpt : powerTwoSided [(1 : ℝ), 0, 0] = [1 / 3, 1 / 3, 1 / 3] := by
    rw [powerTwoSided_three _ (by simp), habs 0, habs 1, habs 2]
  rw [spectrumOf_power, hiL, hpt]
  have hslice : pySlice1 [(1 : ℝ) / 3, 1 / 3, 1 / 3] (1 + 1) = [1 / 3] := by
    rw [pySlice1_of_nonneg _ _ (by norm_num)]
    rfl
  rw [hslice]
  norm_num

/-- Witness for C5: the accepted delta wavelet [1, 0, 0] on times
[-1, 0, 1] has one-sided power [1/3, 2/3] with positive maximum, and some
bin holding the maximum has powerDb exactly 0. -/
theorem C5_db_normalization_witness :
    computePowerSpectrum [(1 : ℝ), 0, 0] [(-1 : ℚ), 0, 1] =
      .ok (spectrumOf [(1 : ℝ), 0, 0] [(-1 : ℚ), 0, 1]) ∧
    0 < npMax (spectrumOf [(1 : ℝ), 0, 0] [(-1 : ℚ), 0, 1]).power ∧
    (∃ i : ℕ, (spectrumOf [(1 : ℝ), 0, 0] [(-1 : ℚ), 0, 1]).power[i]? =
        some (npMax (spectrumOf [(1 : ℝ), 0, 0] [(-1 : ℚ), 0, 1]).power) ∧
      (spectrumOf [(1 : ℝ), 0, 0] [(-1 : ℚ), 0, 1]).powerNormdB[i]? = some (some 0)) := by
  have hok := cps_ok_three [(1 : ℝ), 0, 0] (-1) 0 1 (by simp) (by norm_num)
  have hM : 0 < npMax (spectrumOf [(1 : ℝ), 0, 0] [(-1 : ℚ), 0, 1]).power := by
    rw [c5_wit_power]
    show (0 : ℝ) < max (1 / 3) (2 / 3)
    rw [max_eq_right (by norm_num)]
    norm_num
  exact ⟨hok, hM, (C5_db_normalization [(1 : ℝ), 0, 0] [(-1 : ℚ), 0, 1] _ hok hM).2.1⟩

/-! All-zero amplitude sequences. -/

lemma getD_eq_zero_of_all_zero {ws : List ℝ} (hz : ∀ x ∈ ws, x = 0) (j : ℕ) :
    ws.getD j 0 = 0 := by
  rcases Nat.lt_or_ge j ws.length with h | h
  · rw [List.getD_eq_getElem?_getD, List.getElem?_eq_getElem h]
    exact hz _ (List.getElem_mem h)
  · rw [List.getD_eq_getElem?_getD, List.getElem?_eq_none h]
    rfl

lemma dftOrtho_all_zero {ws : List ℝ} (hz : ∀ x ∈ ws, x = 0) (k : ℕ) :
    dftOrtho ws k = 0 := by
  rw [dftOrtho]
  have hsum : (∑ j ∈ Finset.range ws.length,
      ((ws.getD j 0 : ℝ) : ℂ) *
        Complex.exp (-(2 * (Real.pi : ℂ) * Complex.I) * j * k / ws.length)) = 0 := by
    refine Finset.sum_eq_zero fun j hj => ?_
    rw [getD_eq_zero_of_all_zero hz j]
    simp
  rw [hsum, mul_zero]

lemma powerTwoSided_all_zero {ws : List ℝ} (hz : ∀ x ∈ ws, x = 0) :
    ∀ q ∈ powerTwoSided ws, q = 0 := by
  intro q hq
  rw [powerTwoSided] at hq
  obtain ⟨k, -, rfl⟩ := List.mem_map.mp hq
  rw [dftOrtho_all_zero hz]
  simp

lemma spectrumOf_power_all_zero {ws : List ℝ} (ts : List ℚ) (hz : ∀ x ∈ ws, x = 0) :
    ∀ p ∈ (spectrumOf ws ts).power, p = 0 := by
  have hpt := powerTwoSided_all_zero hz
  intro p hp
  rw [spectrumOf_power] at hp
  rcases List.mem_cons.mp hp with rfl | hp
  · rw [headD_getElem?]
    cases h0 : (powerTwoSided ws)[0]? with
    | none => rfl
    | some a => exact hpt a (List.mem_iff_getElem?.mpr ⟨0, h0⟩)
  · obtain ⟨q, hq, rfl⟩ := List.mem_map.mp hp
    have hq2 : q ∈ powerTwoSided ws := by
      rw [pySlice1] at hq
      exact List.mem_of_mem_take (List.mem_of_mem_drop hq)
    rw [hpt q hq2, mul_zero]

/-- C10 (amended): on every successful analysis of an all-zero amplitude
sequence (so in particular no error is raised on such inputs of at least
two samples with distinct first two times), every one-sided power entry is
0 and the maximum is 0, so each powerDb entry is 10*log10(0/0): no entry is
a finite real number, and the returned powerDb vector is all none. -/
theorem C10_all_zero_db_undefined (ws : List ℝ) (ts : List ℚ) (r : SpectrumResult)
    (hok : computePowerSpectrum ws ts = .ok r)
    (hz : ∀ x ∈ ws, x = 0) :
    npMax r.power = 0 ∧ (∀ p ∈ r.power, p = 0) ∧
    r.powerNormdB.length = r.power.length ∧
    (∀ e ∈ r.powerNormdB, e = none) := by
  obtain ⟨hr, -, -, -, -⟩ := computePowerSpectrum_ok_inv hok
  subst hr
  have hall := spectrumOf_power_all_zero ts hz
  have hM : npMax (spectrumOf ws ts).power = 0 := by
    have hne : (spectrumOf ws ts).power ≠ [] := by
      rw [spectrumOf_power]
      exact List.cons_ne_nil _ _
    exact hall _ (npMax_mem hne)
  refine ⟨hM, hall, ?_, ?_⟩
  · rw [spectrumOf_powerNormdB, List.length_map]
  · intro e he
    rw [spectrumOf_powerNormdB] at he
    obtain ⟨p, hp, rfl⟩ := List.mem_map.mp he
    rw [hall p hp, hM]
    exact dbEntry_none_of_nonpos (by norm_num)

/-- Witness for C10: the all-zero three-sample wavelet on times [0, 1, 2]
is analyzed without error and every powerDb entry is none. -/
theorem C10_all_zero_db_undefined_witness :
    computePowerSpectrum [(0 : ℝ), 0, 0] [(0 : ℚ), 1, 2] =
      .ok (spectrumOf [(0 : ℝ), 0, 0] [(0 : ℚ), 1, 2]) ∧
    (∀ x ∈ [(0 : ℝ), 0, 0], x = 0) ∧
    npMax (spectrumOf [(0 : ℝ), 0, 0] [(0 : ℚ), 1, 2]).power = 0 ∧
    (∀ e ∈ (spectrumOf [(0 : ℝ), 0, 0] [(0 : ℚ), 1, 2]).powerNormdB, e = none) := by
  have hok := cps_ok_three [(0 : ℝ), 0, 0] 0 1 2 (by simp) (by norm_num)
  have hz : ∀ x ∈ [(0 : ℝ), 0, 0], x = 0 := by simp
  have h := C10_all_zero_db_undefined [(0 : ℝ), 0, 0] [(0 : ℚ), 1, 2] _ hok hz
  exact ⟨hok, hz, h.1, h.2.2.2⟩

/-- Counterexample to C10 as stated: the all-zero length-one series
(exactly what the synthesizer yields for amplitudeScalar 0 at the
degenerate length) passes both validation checks, yet the analyzer raises
an index error rather than completing, so not every accepted all-zero
input avoids an error. -/
theorem C10_counterexample :
    (∀ x ∈ [(0 : ℝ)], x = 0) ∧
    [(0 : ℝ)].length % 2 ≠ 0 ∧ [(0 : ℝ)].length = [(0 : ℚ)].length ∧
    computePowerSpectrum [(0 : ℝ)] [(0 : ℚ)] = .error .indexError := by
  refine ⟨by simp, by simp, by simp, ?_⟩
  rw [computePowerSpectrum]
  norm_num

/-! Parseval identity for the orthonormal transform. -/

lemma conj_w (N : ℕ) :
    (starRingEnd ℂ) (Complex.exp (2 * (Real.pi : ℂ) * Complex.I / N)) =
      (Complex.exp (2 * (Real.pi : ℂ) * Complex.I / N))⁻¹ := by
  rw [← Complex.exp_conj, ← Complex.exp_neg]
  congr 1
  simp [Complex.conj_I, map_ofNat]
  ring

lemma w_pow_sum (N : ℕ) (hN : N ≠ 0) (j j2 : ℕ) (hj : j < N) (hj2 : j2 < N) :
    ∑ k ∈ Finset.range N,
      ((Complex.exp (2 * (Real.pi : ℂ) * Complex.I / N)) ^ j2 /
        (Complex.exp (2 * (Real.pi : ℂ) * Complex.I / N)) ^ j) ^ k =
      if j = j2 then (N : ℂ) else 0 := by
  set w := Complex.exp (2 * (Real.pi : ℂ) * Complex.I / N) with hw
  have hprim : IsPrimitiveRoot w N := Complex.isPrimitiveRoot_exp N hN
  have hw0 : w ≠ 0 := Complex.exp_ne_zero _
  by_cases hjj : j = j2
  · subst hjj
    rw [if_pos rfl, div_self (pow_ne_zero j hw0)]
    simp
  · have hmu1 : w ^ j2 / w ^ j ≠ 1 := by
      intro hcon
      exact hjj (hprim.pow_inj hj2 hj ((div_eq_one_iff_eq (pow_ne_zero j hw0)).mp hcon)).symm
    have hmuN : (w ^ j2 / w ^ j) ^ N = 1 := by
      rw [div_pow, ← pow_mul, ← pow_mul, mul_comm j2 N, mul_comm j N, pow_mul, pow_mul,
        hprim.pow_eq_one, one_pow, one_pow]
      exact div_self one_ne_zero
    rw [if_neg hjj, geom_sum_eq hmu1 N, hmuN, sub_self, zero_div]

lemma dftOrtho_eq_w (ws : List ℝ) (k : ℕ) :
    dftOrtho ws k = ((1 / Real.sqrt ws.length : ℝ) : ℂ) *
      ∑ j ∈ Finset.range ws.length, ((ws.getD j 0 : ℝ) : ℂ) *
        ((Complex.exp (2 * (Real.pi : ℂ) * Complex.I / ws.length))⁻¹) ^ (j * k) := by
  rw [dftOrtho]
  congr 1
  refine Finset.sum_congr rfl fun j hj => ?_
  congr 1
  rw [← Complex.exp_neg, ← Complex.exp_nat_mul]
  congr 1
  push_cast
  ring

lemma conj_dftOrtho (ws : List ℝ) (k : ℕ) :
    (starRingEnd ℂ) (dftOrtho ws k) = ((1 / Real.sqrt ws.length : ℝ) : ℂ) *
      ∑ j ∈ Finset.range ws.length, ((ws.getD j 0 : ℝ) : ℂ) *
        (Complex.exp (2 * (Real.pi : ℂ) * Complex.I / ws.length)) ^ (j * k) := by
  rw [dftOrtho_eq_w, map_mul, Complex.conj_ofReal, map_sum]
  congr 1
  refine Finset.sum_congr rfl fun j hj => ?_
  rw [map_mul, Complex.conj_ofReal, map_pow, map_inv₀, conj_w, inv_inv]

lemma parseval_real (ws : List ℝ) (h0 : ws.length ≠ 0) :
    ∑ k ∈ Finset.range ws.length, Complex.abs (dftOrtho ws k) ^ 2 =
      ∑ j ∈ Finset.range ws.length, (ws.getD j 0) ^ 2 := by
  set N := ws.length with hNdef
  set w := Complex.exp (2 * (Real.pi : ℂ) * Complex.I / N) with hwdef
  set c : ℂ := ((1 / Real.sqrt N : ℝ) : ℂ) with hcdef
  have hw0 : w ≠ 0 := Complex.exp_ne_zero _
  have hcN : c ^ 2 * N = 1 := by
    have hr : ((1 / Real.sqrt N) ^ 2 * (N : ℝ) : ℝ) = 1 := by
      rw [div_pow, one_pow, Real.sq_sqrt (Nat.cast_nonneg N)]
      field_simp
    calc c ^ 2 * (N : ℂ) = (((1 / Real.sqrt N) ^ 2 * (N : ℝ) : ℝ) : ℂ) := by
          rw [hcdef, ← Complex.ofReal_pow, ← Complex.ofReal_natCast, ← Complex.ofReal_mul]
      _ = 1 := by rw [hr, Complex.ofReal_one]
  have key : ((∑ k ∈ Finset.range N, Complex.abs (dftOrtho ws k) ^ 2 : ℝ) : ℂ) =
      ((∑ j ∈ Finset.range N, (ws.getD j 0) ^ 2 : ℝ) : ℂ) := by
    push_cast
    calc ∑ k ∈ Finset.range N, ((Complex.abs (dftOrtho ws k) : ℝ) : ℂ) ^ 2
        = ∑ k ∈ Finset.range N, dftOrtho ws k * (starRingEnd ℂ) (dftOrtho ws k) := by
          refine Finset.sum_congr rfl fun k _ => ?_
          rw [← Complex.ofReal_pow, Complex.sq_abs, Complex.mul_conj]
      _ = ∑ k ∈ Finset.range N, ∑ j ∈ Finset.range N, ∑ j2 ∈ Finset.range N,
            ((ws.getD j 0 : ℝ) : ℂ) * ((ws.getD j2 0 : ℝ) : ℂ) * c ^ 2 *
              ((w ^ j2 / w ^ j) ^ k) := by
          refine Finset.sum_congr rfl fun k _ => ?_
          rw [conj_dftOrtho, dftOrtho_eq_w, ← hNdef, ← hwdef, ← hcdef]
          rw [mul_mul_mul_comm, ← sq, Finset.sum_mul_sum, Finset.mul_sum]
          refine Finset.sum_congr rfl fun j _ => ?_
          rw [Finset.mul_sum]
          refine Finset.sum_congr rfl fun j2 _ => ?_
          rw [div_pow, ← pow_mul, ← pow_mul, inv_pow, div_eq_mul_inv]
          ring
      _ = ∑ j ∈ Finset.range N, ∑ j2 ∈ Finset.range N,
            ((ws.getD j 0 : ℝ) : ℂ) * ((ws.getD j2 0 : ℝ) : ℂ) * c ^ 2 *
              (if j = j2 then (N : ℂ) else 0) := by
          rw [Finset.sum_comm]
          refine Finset.sum_congr rfl fun j hj => ?_
          rw [Finset.sum_comm]
          refine Finset.sum_congr rfl fun j2 hj2 => ?_
          rw [← Finset.mul_sum, w_pow_sum N h0 j j2 (Finset.mem_range.mp hj)
            (Finset.mem_range.mp hj2)]
      _ = ∑ j ∈ Finset.range N, ((ws.getD j 0 : ℝ) : ℂ) ^ 2 := by
          refine Finset.sum_congr rfl fun j hj => ?_
          calc (∑ j2 ∈ Finset.range N, ((ws.getD j 0 : ℝ) : ℂ) * ((ws.getD j2 0 : ℝ) : ℂ) *
                c ^ 2 * (if j = j2 then (N : ℂ) else 0))
              = ∑ j2 ∈ Finset.range N, (if j = j2 then
                  ((ws.getD j 0 : ℝ) : ℂ) * ((ws.getD j2 0 : ℝ) : ℂ) * c ^ 2 * N else 0) := by
                refine Finset.sum_congr rfl fun j2 _ => ?_
                split_ifs <;> simp
            _ = ((ws.getD j 0 : ℝ) : ℂ) * ((ws.getD j 0 : ℝ) : ℂ) * c ^ 2 * N := by
                rw [Finset.sum_ite_eq (Finset.range N) j
                  (fun j2 => ((ws.getD j 0 : ℝ) : ℂ) * ((ws.getD j2 0 : ℝ) : ℂ) * c ^ 2 * N),
                  if_pos hj]
            _ = ((ws.getD j 0 : ℝ) : ℂ) ^ 2 * (c ^ 2 * N) := by ring
            _ = ((ws.getD j 0 : ℝ) : ℂ) ^ 2 := by rw [hcN, mul_one]
  exact_mod_cast key

lemma list_sum_map_range (f : ℕ → ℝ) (n : ℕ) :
    ((List.range n).map f).sum = ∑ i ∈ Finset.range n, f i := by
  induction n with
  | zero => simp
  | succ n ih =>
    rw [List.range_succ, List.map_append, List.sum_append, Finset.sum_range_succ, ih]
    simp

lemma list_sum_map_getD (f : ℝ → ℝ) (ws : List ℝ) :
    (ws.map f).sum = ∑ j ∈ Finset.range ws.length, f (ws.getD j 0) := by
  induction ws with
  | nil => simp
  | cons a t ih =>
    rw [List.map_cons, List.sum_cons, List.length_cons, Finset.sum_range_succ']
    simp only [List.getD_cons_succ, List.getD_cons_zero]
    rw [ih]
    exact add_comm _ _

/-- C7: the discrete Fourier transform carries the orthonormal 1/sqrt(N)
factor, so Parseval holds with unit proportionality for every amplitude
sequence (in particular for every input accepted by the analyzer): the sum
of the squared amplitudes equals the sum of the two-sided squared transform
magnitudes computed at line 107, before any one-sided folding. -/
theorem C7_parseval_energy (ws : List ℝ) :
    (ws.map fun x => x ^ 2).sum = (powerTwoSided ws).sum := by
  rcases eq_or_ne ws.length 0 with h0 | h0
  · have hnil : ws = [] := List.length_eq_zero.mp h0
    subst hnil
    simp [powerTwoSided]
  · rw [list_sum_map_getD (fun x => x ^ 2) ws, powerTwoSided,
      list_sum_map_range, parseval_real ws h0]
